import Mathlib

/-!
Verification development for the `voice` real-time pitch-tracking scripts
(`voice.py`, `voice_2.py`, `voice_4.py`, `voice_5.py`).

Modelling conventions:
* Audio samples, wall-clock instants and note values are exact rationals
  (`ℚ`), idealising the source's floating-point arithmetic; sample rates
  and lags are `ℕ`.
* The frequency-to-MIDI conversion `69 + 12*log2(f/440)` is irrational, so
  every function that stores a note value is parametrised by an arbitrary
  conversion map `noteOf : ℚ → ℚ` applied exactly where the source computes
  the note; no claim checked here depends on the numeric value of a note
  produced by that map.
* The RMS energy gate `sqrt(mean(x^2)) < threshold` is embedded as the
  equivalent squared comparison `mean(x^2) < threshold^2`; the thresholds
  the scripts use (0.0075 and 0.005) are nonnegative, so the two
  comparisons agree on every input.
* Parallel `times`/`notes` Python lists that are always appended to and
  popped from together are embedded as single lists of pairs.
-/

namespace Voice

/-- Configuration constant `SAMPLE_RATE = 44100` from the scripts. -/
def SAMPLE_RATE : ℕ := 44100

/-- Configuration constant `HOP_SIZE = 1024` from the scripts. -/
def HOP_SIZE : ℕ := 1024

/-- Configuration constant `VOLUME_THRESHOLD = 0.0075` from `voice.py` /
`voice_5.py` (as the exact rational 3/400). -/
def VOLUME_THRESHOLD : ℚ := 3 / 400

/-- Configuration constant `PAST_DURATION = 5` (seconds of past shown),
from `voice_4.py` / `voice_5.py`. -/
def PAST_DURATION : ℚ := 5

/-- Configuration constant `FUTURE_DURATION = 10` (seconds of future shown),
from `voice_4.py` / `voice_5.py`. -/
def FUTURE_DURATION : ℚ := 10

/-- `np.mean` of a list of rationals (sum divided by length; `0` on the
empty list, where numpy would produce NaN — never reached on real chunks). -/
def mean (s : List ℚ) : ℚ := s.sum / (s.length : ℚ)

/-- Lag-`k` autocorrelation `corr[k] = Σ_i s[i] * s[i+k]`: entry `n-1+k` of
`np.correlate(s, s, mode. full)`, i.e. entry `k` after the script slices
`corr[len(corr)//2:]` to keep the non-negative lags. -/
def autocorrAt (s : List ℚ) (k : ℕ) : ℚ := (List.zipWith (· * ·) (s.drop k) s).sum

/-- The non-negative-lag autocorrelation list `corr` of `detect_pitch`
(length `n = len(signal)`). -/
def autocorr (s : List ℚ) : List ℚ := (List.range s.length).map (autocorrAt s)

/-- DC removal `signal = signal - np.mean(signal)` in `detect_pitch`. -/
def centered (signal : List ℚ) : List ℚ := signal.map (fun x => x - mean signal)

/-- Helper for `argmaxIdx`: scan with current index, best index and best
value; a strictly larger value replaces the best, so ties keep the earliest
index, as `np.argmax` does. -/
def argmaxGo : List ℚ → ℕ → ℕ → ℚ → ℕ
  | [], _, best, _ => best
  | x :: xs, i, best, bv =>
    if bv < x then argmaxGo xs (i + 1) i x else argmaxGo xs (i + 1) best bv

/-- Index of the first maximal element, `np.argmax` (0 on the empty list,
where numpy would raise — never reached: the script guards the slice to be
nonempty). -/
def argmaxIdx : List ℚ → ℕ
  | [] => 0
  | x :: xs => argmaxGo xs 1 0 x

/-- `detect_pitch(signal, sample_rate)` from the scripts: DC removal,
non-negative-lag autocorrelation, peak search in the lag band
`[int(rate/1000), int(rate/50))` (the upper bound clamped to `len(corr)-1`
when it exceeds `len(corr)`, the lower clamped up to 1), a confidence gate
`corr[peak] < 0.1 * corr[0] → 0.0`, and finally `rate / peak_index`.
Returns `0` for "unvoiced". -/
def detectPitch (signal : List ℚ) (rate : ℕ) : ℚ :=
  let corr := autocorr (centered signal)
  let minLag : ℕ := if rate / 1000 < 1 then 1 else rate / 1000
  let maxLag : ℕ := if corr.length < rate / 50 then corr.length - 1 else rate / 50
  if maxLag ≤ minLag then 0
  else
    let peakIndex := argmaxIdx ((corr.drop minLag).take (maxLag - minLag)) + minLag
    if corr.getD peakIndex 0 < (1 / 10) * corr.getD 0 0 then 0
    else (rate : ℚ) / (peakIndex : ℚ)

/-- Mean square `np.mean(chunk**2)` of a chunk. -/
def meanSq (chunk : List ℚ) : ℚ := (chunk.map (fun x => x * x)).sum / (chunk.length : ℚ)

/-- The caller-side energy gate `rms < threshold` with
`rms = np.sqrt(np.mean(chunk**2))`, embedded as the equivalent squared
comparison `meanSq chunk < threshold^2` (valid for the nonnegative
thresholds the scripts use). `true` means the chunk is gated out. -/
def rmsBelowThreshold (chunk : List ℚ) (threshold : ℚ) : Bool :=
  decide (meanSq chunk < threshold * threshold)

/-- The caller-side acceptance check `50 <= freq <= 2000` applied to the
value returned by `detect_pitch` in `audio_thread` and
`process_audio_file`. -/
def voicedAccept (f : ℚ) : Bool := decide (50 ≤ f ∧ f ≤ 2000)

/-- Result of `scipy.io.wavfile.read`: the decoded sample array together
with its dtype, already downmixed to mono (the scripts'
`data = data[:, 0]` channel-0 selection is upstream of everything the
claims touch). `unsupported` stands for every dtype other than
`np.int16` / `np.int32` / `np.float32` (e.g. `np.uint8`). -/
inductive WavData where
  | i16 (xs : List ℤ)
  | i32 (xs : List ℤ)
  | f32 (xs : List ℚ)
  | unsupported
deriving DecidableEq

/-- The dtype dispatch of `process_audio_file`: int16 divided by `32768`
(2^15), int32 divided by `2147483648` (2^31), float32 passed through,
anything else handled by the `else` branch, which prints
`Unsupported data type` and makes the function return `([], [])`
(modelled as `none` here). -/
def normalizeWav : WavData → Option (List ℚ)
  | WavData.i16 xs => some (xs.map (fun v => (v : ℚ) / 32768))
  | WavData.i32 xs => some (xs.map (fun v => (v : ℚ) / 2147483648))
  | WavData.f32 xs => some xs
  | WavData.unsupported => none

/-- `file_hop_size` of `process_audio_file`:
`int((hop_size / SAMPLE_RATE) * rate)` (exact floor; the source computes
this in binary floating point, which agrees with the exact floor except on
representation corner cases), bumped to 1 when it is 0. -/
def fileHopSize (hop rate : ℕ) : ℕ :=
  let h := hop * rate / SAMPLE_RATE
  if h = 0 then 1 else h

/-- Number of iterations of `for i in range(0, len(data) - file_hop_size,
file_hop_size)`: `⌈(L - fhs) / fhs⌉` with truncated subtraction (0 when
`L ≤ fhs`, matching Python's empty range for a non-positive stop). -/
def numHops (L fhs : ℕ) : ℕ := (L - fhs + fhs - 1) / fhs

/-- The chunk processed by hop number `k`: `data[k*fhs : k*fhs + fhs]`. -/
def chunkAt (data : List ℚ) (fhs k : ℕ) : List ℚ := (data.drop (k * fhs)).take fhs

/-- The hop loop of `process_audio_file`, recursing over the list of hop
start indices and threading the `start_time` accumulator `t`: a gated-out
hop (`rms < threshold`) only advances `t`; otherwise the detector runs and
a `(start_time, note)` pair is recorded when `50 <= freq <= 2000`; every
iteration advances `t` by exactly `file_hop_size / rate`. -/
def refGo (noteOf : ℚ → ℚ) (data : List ℚ) (fhs rate : ℕ) (threshold : ℚ) :
    List ℕ → ℚ → List ℚ × List ℚ
  | [], _ => ([], [])
  | i :: rest, t =>
    let chunk := (data.drop i).take fhs
    let tail := refGo noteOf data fhs rate threshold rest (t + (fhs : ℚ) / (rate : ℚ))
    if rmsBelowThreshold chunk threshold then tail
    else
      let f := detectPitch chunk rate
      if voicedAccept f then (t :: tail.1, noteOf f :: tail.2) else tail

/-- The hop start indices `range(0, len(data) - file_hop_size,
file_hop_size)` visited by the loop of `process_audio_file`. -/
def hopStarts (L fhs : ℕ) : List ℕ := (List.range (numHops L fhs)).map (· * fhs)

/-- `process_audio_file(filename, hop_size, threshold)` after a successful
`wavfile.read` returning `(rate, wd)` (the try/except read-failure path,
which also returns `([], [])`, is not modelled): dtype normalization, hop
size computation, then the hop loop starting from `start_time = 0.0`. -/
def processAudioFile (noteOf : ℚ → ℚ) (rate : ℕ) (wd : WavData) (hop : ℕ)
    (threshold : ℚ) : List ℚ × List ℚ :=
  match normalizeWav wd with
  | none => ([], [])
  | some data =>
    let fhs := fileHopSize hop rate
    refGo noteOf data fhs rate threshold (hopStarts data.length fhs) 0

/-- Models the top level of `voice_5.py` after `process_audio_file`
returns (lines 271-441): the script unconditionally reads the track
duration, builds the figure and starts both engine threads; no branch
inspects the load result to raise or exit, so the session never aborts,
whatever the result was. -/
def sessionAbortsAfterLoad (_res : List ℚ × List ℚ) : Bool := false

/-- The shared mutable session state of `voice_5.py`: the transport
globals (`is_playing`, `current_playback_time`, `last_resume_wall_time`,
`seek_to`) plus the producer/consumer data (`data_queue`, and the paired
`times`/`notes` lists of the consumer). -/
structure SysState where
  is_playing : Bool
  current_playback_time : ℚ
  last_resume_wall_time : ℚ
  seek_to : Option ℚ
  queue : List (ℚ × ℚ)
  live : List (ℚ × ℚ)
deriving DecidableEq

/-- The state right after `voice_5.py` startup at wall time `t0`:
`is_playing = True`, `current_playback_time = 0.0`,
`last_resume_wall_time = time.time()` (set just before `start_event`),
`seek_to = None`, empty queue and live lists. -/
def initState (t0 : ℚ) : SysState :=
  { is_playing := true, current_playback_time := 0, last_resume_wall_time := t0,
    seek_to := none, queue := [], live := [] }

/-- `get_elapsed_playing_time()` evaluated when `time.time()` is
`wallNow`. -/
def getElapsedPlayingTime (s : SysState) (wallNow : ℚ) : ℚ :=
  if s.is_playing then
    s.current_playback_time + (wallNow - s.last_resume_wall_time)
  else s.current_playback_time

/-- The space-key branch of `on_key` (toggle play/pause) at wall time
`t`. -/
def toggleKey (t : ℚ) (s : SysState) : SysState :=
  if s.is_playing then
    { s with current_playback_time := s.current_playback_time + (t - s.last_resume_wall_time),
             is_playing := false }
  else
    { s with last_resume_wall_time := t, is_playing := true }

/-- The `s`-key branch of `on_key` (stop) at wall time `t`: fold elapsed
time if playing, then `seek_to = 0`, `current_playback_time = 0`, and
clear the live lists and drain the queue. -/
def stopKey (t : ℚ) (s : SysState) : SysState :=
  let s1 :=
    if s.is_playing then
      { s with current_playback_time := s.current_playback_time + (t - s.last_resume_wall_time),
               is_playing := false }
    else s
  { s1 with seek_to := some 0, current_playback_time := 0, queue := [], live := [] }

/-- The left-arrow branch of `on_key` (rewind 2 seconds) at wall time `t`:
`new_pos = max(0, now - 2)` (note: no upper clamp), both
`current_playback_time` and `seek_to` set to it, `last_resume_wall_time`
reset when playing, live lists cleared and queue drained. -/
def seekLeftKey (t : ℚ) (s : SysState) : SysState :=
  let np0 := s.current_playback_time +
    (if s.is_playing then t - s.last_resume_wall_time else 0) - 2
  let np := max 0 np0
  { s with seek_to := some np, current_playback_time := np,
           last_resume_wall_time := if s.is_playing then t else s.last_resume_wall_time,
           queue := [], live := [] }

/-- The right-arrow branch of `on_key` (fast-forward 2 seconds) at wall
time `t`: `new_pos = min(now + 2, audio_duration)` (note: no lower clamp),
otherwise as the left-arrow branch. -/
def seekRightKey (dur t : ℚ) (s : SysState) : SysState :=
  let np0 := s.current_playback_time +
    (if s.is_playing then t - s.last_resume_wall_time else 0) + 2
  let np := min np0 dur
  { s with seek_to := some np, current_playback_time := np,
           last_resume_wall_time := if s.is_playing then t else s.last_resume_wall_time,
           queue := [], live := [] }

/-- One `audio_thread` event: the queue `put` of a `(timestamp, note)`
pair. -/
def pushEvent (e : ℚ × ℚ) (s : SysState) : SysState :=
  { s with queue := s.queue ++ [e] }

/-- The buffer-maintenance part of the animation `update` callback at wall
time `t`: drain the queue into the live lists in arrival order, then prune
from the front while the oldest timestamp is older than
`now - PAST_DURATION - 1`. -/
def updateTick (t : ℚ) (s : SysState) : SysState :=
  let now := getElapsedPlayingTime s t
  { s with queue := [],
           live := (s.live ++ s.queue).dropWhile (fun e => decide (e.1 < now - PAST_DURATION - 1)) }

/-- The live points `update` actually renders at wall time `t`: those
whose display-relative time `timestamp - now` lies in
`[-PAST_DURATION, 0]`. -/
def renderedLive (s : SysState) (t : ℚ) : List (ℚ × ℚ) :=
  s.live.filter (fun e =>
    decide (-PAST_DURATION ≤ e.1 - getElapsedPlayingTime s t) &&
    decide (e.1 - getElapsedPlayingTime s t ≤ 0))

/-- The atomic events of the `voice_5.py` session: the four `on_key`
transport commands, a producer `put`, and a consumer `update` tick. -/
inductive Ev where
  | toggle
  | stop
  | seekLeft
  | seekRight
  | push (e : ℚ × ℚ)
  | tick
deriving DecidableEq

/-- Apply one timed event (each runs as one critical section in the
script: `on_key` and the queue operations hold the lock / the GIL). -/
def applyEv (dur : ℚ) (s : SysState) (ev : Ev × ℚ) : SysState :=
  match ev.1 with
  | Ev.toggle => toggleKey ev.2 s
  | Ev.stop => stopKey ev.2 s
  | Ev.seekLeft => seekLeftKey ev.2 s
  | Ev.seekRight => seekRightKey dur ev.2 s
  | Ev.push e => pushEvent e s
  | Ev.tick => updateTick ev.2 s

/-- The payloads of the `push` events of a timed event list. -/
def pushedEvents : List (Ev × ℚ) → List (ℚ × ℚ)
  | [] => []
  | (Ev.push e, _) :: rest => e :: pushedEvents rest
  | _ :: rest => pushedEvents rest

/-- Reachability for `voice_5.py` sessions with track duration `dur`:
`Reachable dur t s` says state `s` can be observed at wall time `t`,
starting from `initState t0` and applying timed events at non-decreasing
wall times (the wall clock `time.time()` is monotone). -/
inductive Reachable (dur : ℚ) : ℚ → SysState → Prop where
  | init (t0 : ℚ) : Reachable dur t0 (initState t0)
  | step {t : ℚ} {s : SysState} {t' : ℚ} (ev : Ev) (h : Reachable dur t s)
      (hle : t ≤ t') : Reachable dur t' (applyEv dur s (ev, t'))
  | wait {t : ℚ} {s : SysState} {t' : ℚ} (h : Reachable dur t s)
      (hle : t ≤ t') : Reachable dur t' s

/-- One body iteration of `audio_thread` in `voice_5.py` after the chunk
read, evaluated when `get_elapsed_playing_time()` is `nowTime`: the
`is_playing` check under the lock discards the chunk first, then the
energy gate, then the detector with the band acceptance; a surviving chunk
yields the queued pair `(now - input_latency, note)`. -/
def captureStep (noteOf : ℚ → ℚ) (isPlaying : Bool) (chunk : List ℚ) (rate : ℕ)
    (threshold inputLat nowTime : ℚ) : Option (ℚ × ℚ) :=
  if !isPlaying then none
  else if rmsBelowThreshold chunk threshold then none
  else
    let f := detectPitch chunk rate
    if voicedAccept f then some (nowTime - inputLat, noteOf f) else none

/-- The shown reference points of `update` (lines 385-392 of
`voice_5.py`), in display-relative coordinates: `rel = t - now +
output_latency` kept when `-PAST_DURATION ≤ rel ≤ FUTURE_DURATION`
(this is the `bg_x`/`bg_y` pair). -/
def refShown (refs : List (ℚ × ℚ)) (now lat : ℚ) : List (ℚ × ℚ) :=
  (refs.map (fun r => (r.1 - now + lat, r.2))).filter (fun r =>
    decide (-PAST_DURATION ≤ r.1) && decide (r.1 ≤ FUTURE_DURATION))

/-- The shown live points of `update` (lines 397-403), in display-relative
coordinates: `rel = t - now` kept when `-PAST_DURATION ≤ rel ≤ 0` (the
`live_x`/`live_y` pair). -/
def liveShown (live : List (ℚ × ℚ)) (now : ℚ) : List (ℚ × ℚ) :=
  (live.map (fun e => (e.1 - now, e.2))).filter (fun e =>
    decide (-PAST_DURATION ≤ e.1) && decide (e.1 ≤ 0))

/-- The scoring candidate pool `bg_x_past`/`bg_y_past` of `update` (line
408): the shown reference points whose display-relative time is `≤ 0`. -/
def bgPast (refs : List (ℚ × ℚ)) (now lat : ℚ) : List (ℚ × ℚ) :=
  (refShown refs now lat).filter (fun r => decide (r.1 ≤ 0))

/-- `np.argmin(np.abs(bg_x_past - lx))` followed by indexing, returning
the selected element: scan keeping the best-so-far; a strictly smaller
distance replaces it, so ties keep the earliest element as `np.argmin`
does. -/
def nearestGo (lx : ℚ) : List (ℚ × ℚ) → (ℚ × ℚ) → ℚ × ℚ
  | [], best => best
  | r :: rest, best =>
    if |r.1 - lx| < |best.1 - lx| then nearestGo lx rest r
    else nearestGo lx rest best

/-- The per-live-point error of the scoring loop of `update` (lines
406-416): default `3.0`; when the pool is nonempty, take the
nearest-in-display-time pool point and, if its gap is strictly below
`0.2`, use `|live_y - bg_y_past[idx]|`. -/
def scoreError (pool : List (ℚ × ℚ)) (p : ℚ × ℚ) : ℚ :=
  match pool with
  | [] => 3
  | b :: bs =>
    let r := nearestGo p.1 bs b
    if |r.1 - p.1| < 1 / 5 then |p.2 - r.2| else 3

/-- The error array `update` attaches to the shown live points (the code
guards `len(bg_x) > 0` and `np.any(past_mask)`; both failing leaves the
`np.full(..., 3.0)` default, which `scoreError`'s empty-pool branch
reproduces). -/
def computeErrors (refs live : List (ℚ × ℚ)) (now lat : ℚ) : List ℚ :=
  (liveShown live now).map (scoreError (bgPast refs now lat))

/-- Modelled from the claim wording of C6 (spec section 4.6), for
comparison with the code's `computeErrors`: the candidate pool is every
reference point at or before `now` (no visibility-window restriction, no
latency shift), the nearest is taken by absolute-time gap, and the
tolerance test is the same `< 0.2`. -/
def claimScoreError (refs : List (ℚ × ℚ)) (now : ℚ) (p : ℚ × ℚ) : ℚ :=
  match refs.filter (fun r => decide (r.1 ≤ now)) with
  | [] => 3
  | b :: bs =>
    let r := nearestGo p.1 bs b
    if |r.1 - p.1| < 1 / 5 then |p.2 - r.2| else 3

/-- Modelled from the claim wording of C6: the claim's error assignment
for each shown live point (same visibility as the code), scored in
absolute time against all reference points at or before `now`. -/
def claimScorerErrors (refs live : List (ℚ × ℚ)) (now : ℚ) : List ℚ :=
  (live.filter (fun e =>
    decide (-PAST_DURATION ≤ e.1 - now) && decide (e.1 - now ≤ 0))).map
    (claimScoreError refs now)

/-- A concrete session state with one queued and one shown live event,
used to instantiate universally quantified theorems. -/
def sampleState : SysState :=
  { is_playing := true, current_playback_time := 0, last_resume_wall_time := 0,
    seek_to := none, queue := [(3, 61)], live := [(2, 60)] }

/-- Claim C3, counterexample: loading an unsupported sample format does
not fail fast and does not abort the session. `process_audio_file` on an
unsupported dtype returns the perfectly normal value `([], [])` — the very
same value it returns for a legitimate (empty) float32 file, so no error
signal distinguishes the two — and the `voice_5.py` top level then starts
both engines unconditionally. -/
theorem unsupported_format_no_abort_cex :
    processAudioFile id 44100 WavData.unsupported 1024 VOLUME_THRESHOLD =
      processAudioFile id 44100 (WavData.f32 []) 1024 VOLUME_THRESHOLD ∧
    sessionAbortsAfterLoad
      (processAudioFile id 44100 WavData.unsupported 1024 VOLUME_THRESHOLD) = false := by
  exact ⟨rfl, rfl⟩

/-- Claim C3 (amended): the three supported formats are normalized to
[-1,1] by full-scale division — `2^15` for 16-bit integer, `2^31` for
32-bit integer, float passed through — but an unsupported format is not
rejected with `UnsupportedAudioFormat`: `process_audio_file` logs and
returns empty reference lists, and the session continues (the engines
still start) rather than aborting. -/
theorem format_normalization (noteOf : ℚ → ℚ) (rate hop : ℕ) (thr : ℚ)
    (xs : List ℤ) (ys : List ℚ) :
    (32768 : ℚ) = 2 ^ 15 ∧
    normalizeWav (WavData.i16 xs) = some (xs.map (fun v => (v : ℚ) / 32768)) ∧
    (2147483648 : ℚ) = 2 ^ 31 ∧
    normalizeWav (WavData.i32 xs) = some (xs.map (fun v => (v : ℚ) / 2147483648)) ∧
    normalizeWav (WavData.f32 ys) = some ys ∧
    processAudioFile noteOf rate WavData.unsupported hop thr = ([], []) ∧
    sessionAbortsAfterLoad (processAudioFile noteOf rate WavData.unsupported hop thr)
      = false := by
  refine ⟨by norm_num, rfl, by norm_num, rfl, rfl, rfl, rfl⟩

/-- Claim C9: while the transport is not Playing, `audio_thread` discards
every chunk right after the blocking read — before the energy gate and the
detector run — so no chunk read while `is_playing` is false can push a
`PitchEvent`, however loud or periodic it is. -/
theorem capture_paused_no_event (noteOf : ℚ → ℚ) (chunk : List ℚ) (rate : ℕ)
    (threshold inputLat nowTime : ℚ) :
    captureStep noteOf false chunk rate threshold inputLat nowTime = none := rfl

/-- Claim C4, counterexample: the backward seek has no upper clamp. From
the initial state (Playing since wall time 0) observed at wall time 10
with a track of duration 1, `now() = 10`; pressing the left arrow sets
`current_playback_time = max(0, 10 - 2) = 8`, while the claim's
`clamp(now() - 2, 0, trackDuration)` would give 1 — the stored position
exceeds the track duration. -/
theorem seekLeft_exceeds_duration_cex :
    Reachable 1 10 (initState 0) ∧
    Reachable 1 10 (seekLeftKey 10 (initState 0)) ∧
    (seekLeftKey 10 (initState 0)).current_playback_time = 8 ∧
    (seekLeftKey 10 (initState 0)).current_playback_time ≠
      min (max (getElapsedPlayingTime (initState 0) 10 - 2) 0) 1 ∧
    ¬ (seekLeftKey 10 (initState 0)).current_playback_time ≤ 1 := by
  refine ⟨Reachable.wait (Reachable.init 0) (by norm_num),
          Reachable.step Ev.seekLeft (Reachable.init 0) (by norm_num), ?_, ?_, ?_⟩ <;>
    norm_num [seekLeftKey, initState, getElapsedPlayingTime, max_def, min_def]

/-- Claim C4 (amended): for every transport state and wall time, the
backward seek sets both `current_playback_time` and the pending seek
target to `max(0, now() - 2)` (clamped below at 0, with no upper clamp),
the forward seek sets both to `min(now() + 2, trackDuration)` (clamped
above at the duration, with no lower clamp), and both reset
`last_resume_wall_time` to the current wall clock exactly when Playing. -/
theorem seek_sets_clamped_position (dur t : ℚ) (s : SysState) :
    (seekLeftKey t s).current_playback_time = max 0 (getElapsedPlayingTime s t - 2) ∧
    (seekLeftKey t s).seek_to = some (max 0 (getElapsedPlayingTime s t - 2)) ∧
    (seekRightKey dur t s).current_playback_time = min (getElapsedPlayingTime s t + 2) dur ∧
    (seekRightKey dur t s).seek_to = some (min (getElapsedPlayingTime s t + 2) dur) ∧
    (seekLeftKey t s).last_resume_wall_time =
      (if s.is_playing then t else s.last_resume_wall_time) ∧
    (seekRightKey dur t s).last_resume_wall_time =
      (if s.is_playing then t else s.last_resume_wall_time) := by
  unfold seekLeftKey seekRightKey getElapsedPlayingTime
  by_cases h : s.is_playing <;> simp [h]

/-- Claim C7: pausing at wall time `t1` from a Playing state and resuming
at wall time `t2` leaves `now()` unchanged by the wall-clock time spent
Paused — `now()` immediately after the resume equals `now()` at the moment
of the pause — and `now()` is constant (the same value) at every query
instant of the Paused interval. -/
theorem toggle_twice_preserves_now (s : SysState) (t1 t2 tq : ℚ)
    (h : s.is_playing = true) :
    getElapsedPlayingTime (toggleKey t2 (toggleKey t1 s)) t2 =
      getElapsedPlayingTime s t1 ∧
    getElapsedPlayingTime (toggleKey t1 s) tq = getElapsedPlayingTime s t1 := by
  unfold toggleKey getElapsedPlayingTime
  simp [h]

/-- Witness for `toggle_twice_preserves_now` at the concrete initial state
(Playing since wall time 0), pausing at 3, querying at 5, resuming at 7. -/
theorem toggle_twice_witness :
    getElapsedPlayingTime (toggleKey 7 (toggleKey 3 (initState 0))) 7 =
      getElapsedPlayingTime (initState 0) 3 ∧
    getElapsedPlayingTime (toggleKey 3 (initState 0)) 5 =
      getElapsedPlayingTime (initState 0) 3 :=
  toggle_twice_preserves_now (initState 0) 3 7 5 rfl

/-- Core invariant of reachable session states: the stored position is
nonnegative, and while Playing the resume wall-clock stamp is no later
than the current wall time. -/
theorem reachable_inv {dur t : ℚ} {s : SysState} (hdur : 0 ≤ dur)
    (h : Reachable dur t s) :
    0 ≤ s.current_playback_time ∧
    (s.is_playing = true → s.last_resume_wall_time ≤ t) := by
  induction h with
  | init t0 => exact ⟨le_refl 0, fun _ => le_refl t0⟩
  | @step t s t' ev h hle ih =>
    obtain ⟨ih1, ih2⟩ := ih
    cases ev with
    | toggle =>
      cases hp : s.is_playing
      · refine ⟨?_, ?_⟩ <;> simp [applyEv, toggleKey, hp]
        exact ih1
      · have hlt := ih2 hp
        refine ⟨?_, ?_⟩ <;> simp [applyEv, toggleKey, hp]
        linarith
    | stop =>
      cases hp : s.is_playing <;> refine ⟨?_, ?_⟩ <;> simp [applyEv, stopKey, hp]
    | seekLeft =>
      cases hp : s.is_playing <;> refine ⟨?_, ?_⟩ <;> simp [applyEv, seekLeftKey, hp]
    | seekRight =>
      cases hp : s.is_playing
      · refine ⟨?_, ?_⟩ <;> simp [applyEv, seekRightKey, hp, le_min_iff]
        constructor <;> linarith
      · have hlt := ih2 hp
        refine ⟨?_, ?_⟩ <;> simp [applyEv, seekRightKey, hp, le_min_iff]
        constructor <;> linarith
    | push e => exact ⟨ih1, fun hp => le_trans (ih2 hp) hle⟩
    | tick => exact ⟨ih1, fun hp => le_trans (ih2 hp) hle⟩
  | wait h hle ih => exact ⟨ih.1, fun hp => le_trans (ih.2 hp) hle⟩

/-- Claim C2, counterexample: `now()` and `accumulatedPlayedSeconds` are
not bounded by the track duration. With `trackDuration = 1` the initial
state (Playing since wall time 0) is reachable at wall time 5, where
`now()` reports 5 > 1; pausing there stores
`current_playback_time = 5 > 1`. -/
theorem clock_exceeds_duration_cex :
    Reachable 1 5 (initState 0) ∧
    getElapsedPlayingTime (initState 0) 5 = 5 ∧
    ¬ getElapsedPlayingTime (initState 0) 5 ≤ 1 ∧
    Reachable 1 5 (toggleKey 5 (initState 0)) ∧
    (toggleKey 5 (initState 0)).current_playback_time = 5 ∧
    ¬ (toggleKey 5 (initState 0)).current_playback_time ≤ 1 := by
  refine ⟨Reachable.wait (Reachable.init 0) (by norm_num), ?_, ?_,
          Reachable.step Ev.toggle (Reachable.init 0) (by norm_num), ?_, ?_⟩ <;>
    norm_num [getElapsedPlayingTime, toggleKey, initState]

/-- Claim C2 (amended): in every reachable session state (commands at
non-decreasing wall times, nonnegative track duration),
`current_playback_time` and the value `now()` reports are nonnegative, and
`now()` is monotonically non-decreasing in wall time within the state
(strictly: non-decreasing while Playing, constant otherwise); the upper
bound `trackDuration`, however, does not hold — the clock keeps counting
past end-of-track (see the counterexample). -/
theorem transport_clock_bounds {dur t : ℚ} {s : SysState} (hdur : 0 ≤ dur)
    (h : Reachable dur t s) :
    0 ≤ s.current_playback_time ∧
    0 ≤ getElapsedPlayingTime s t ∧
    ∀ t1 t2 : ℚ, t ≤ t1 → t1 ≤ t2 →
      getElapsedPlayingTime s t1 ≤ getElapsedPlayingTime s t2 := by
  obtain ⟨h1, h2⟩ := reachable_inv hdur h
  refine ⟨h1, ?_, ?_⟩
  · unfold getElapsedPlayingTime
    by_cases hp : s.is_playing
    · have := h2 hp; simp only [hp, if_true]; linarith
    · simpa [hp] using h1
  · intro t1 t2 _ h12
    unfold getElapsedPlayingTime
    by_cases hp : s.is_playing <;> simp only [hp, if_true, if_false]
    · linarith
    · exact le_refl _

/-- Witness for `transport_clock_bounds`: the initial state observed at
wall time 5 with track duration 1, where both nonnegativity conclusions
hold concretely. -/
theorem transport_clock_bounds_witness :
    (0 : ℚ) ≤ 1 ∧ 0 ≤ (initState 0).current_playback_time ∧
    0 ≤ getElapsedPlayingTime (initState 0) 5 := by
  have hr : Reachable 1 5 (initState 0) :=
    Reachable.wait (Reachable.init 0) (by norm_num)
  have h := transport_clock_bounds (show (0 : ℚ) ≤ 1 by norm_num) hr
  exact ⟨by norm_num, h.1, h.2.1⟩

/-- The toggle command leaves the live lists untouched. -/
theorem toggleKey_live (t : ℚ) (s : SysState) : (toggleKey t s).live = s.live := by
  unfold toggleKey; split <;> rfl

/-- The toggle command leaves the queue untouched. -/
theorem toggleKey_queue (t : ℚ) (s : SysState) : (toggleKey t s).queue = s.queue := by
  unfold toggleKey; split <;> rfl

/-- Everything in the live lists or the queue after a run of session
events either satisfies the entry invariant `P` or was pushed during the
run. -/
theorem mem_foldl_applyEv (dur : ℚ) (evs : List (Ev × ℚ)) :
    ∀ (s : SysState) (P : ℚ × ℚ → Prop),
      (∀ e ∈ s.live, P e) → (∀ e ∈ s.queue, P e) →
      (∀ e ∈ (evs.foldl (applyEv dur) s).live, P e ∨ e ∈ pushedEvents evs) ∧
      (∀ e ∈ (evs.foldl (applyEv dur) s).queue, P e ∨ e ∈ pushedEvents evs) := by
  induction evs with
  | nil =>
    intro s P hl hq
    exact ⟨fun e he => Or.inl (hl e he), fun e he => Or.inl (hq e he)⟩
  | cons ev rest ih =>
    intro s P hl hq
    rw [List.foldl_cons]
    obtain ⟨k, te⟩ := ev
    cases k with
    | toggle =>
      have := ih (applyEv dur s (Ev.toggle, te)) P
        (by rw [show applyEv dur s (Ev.toggle, te) = toggleKey te s from rfl,
              toggleKey_live]; exact hl)
        (by rw [show applyEv dur s (Ev.toggle, te) = toggleKey te s from rfl,
              toggleKey_queue]; exact hq)
      simpa [pushedEvents] using this
    | stop =>
      have := ih (applyEv dur s (Ev.stop, te)) P (by intro e he; simp [applyEv, stopKey] at he)
        (by intro e he; simp [applyEv, stopKey] at he)
      simpa [pushedEvents] using this
    | seekLeft =>
      have := ih (applyEv dur s (Ev.seekLeft, te)) P
        (by intro e he; simp [applyEv, seekLeftKey] at he)
        (by intro e he; simp [applyEv, seekLeftKey] at he)
      simpa [pushedEvents] using this
    | seekRight =>
      have := ih (applyEv dur s (Ev.seekRight, te)) P
        (by intro e he; simp [applyEv, seekRightKey] at he)
        (by intro e he; simp [applyEv, seekRightKey] at he)
      simpa [pushedEvents] using this
    | push e0 =>
      have := ih (applyEv dur s (Ev.push e0, te)) (fun e => P e ∨ e = e0)
        (by intro e he; exact Or.inl (hl e he))
        (by
          intro e he
          simp only [applyEv, pushEvent, List.mem_append, List.mem_singleton] at he
          rcases he with he | he
          · exact Or.inl (hq e he)
          · exact Or.inr he)
      obtain ⟨c1, c2⟩ := this
      constructor
      · intro e he
        rcases c1 e he with (hP | rfl) | hmem
        · exact Or.inl hP
        · simp [pushedEvents]
        · simp only [pushedEvents, List.mem_cons]; tauto
      · intro e he
        rcases c2 e he with (hP | rfl) | hmem
        · exact Or.inl hP
        · simp [pushedEvents]
        · simp only [pushedEvents, List.mem_cons]; tauto
    | tick =>
      have := ih (applyEv dur s (Ev.tick, te)) P
        (by
          intro e he
          simp only [applyEv, updateTick] at he
          have hsub : e ∈ s.live ++ s.queue := (List.dropWhile_sublist _).subset he
          rcases List.mem_append.mp hsub with h1 | h1
          · exact hl e h1
          · exact hq e h1)
        (by intro e he; simp [applyEv, updateTick] at he)
      simpa [pushedEvents] using this

/-- The mean of an all-zero chunk is 0. -/
theorem mean_replicate_zero (n : ℕ) : mean (List.replicate n 0) = 0 := by
  unfold mean
  simp

/-- DC removal leaves an all-zero chunk all zero. -/
theorem centered_replicate_zero (n : ℕ) :
    centered (List.replicate n 0) = List.replicate n 0 := by
  unfold centered
  simp [mean_replicate_zero]

/-- Every autocorrelation lag of an all-zero chunk is 0. -/
theorem autocorrAt_replicate_zero (n k : ℕ) :
    autocorrAt (List.replicate n 0) k = 0 := by
  unfold autocorrAt
  rw [List.drop_replicate, List.zipWith_replicate]
  simp

/-- The autocorrelation list of an all-zero chunk is all zero. -/
theorem autocorr_replicate_zero (n : ℕ) :
    autocorr (List.replicate n 0) = List.replicate n 0 := by
  unfold autocorr
  rw [List.length_replicate]
  refine List.eq_replicate_iff.mpr ⟨by simp, ?_⟩
  intro b hb
  simp only [List.mem_map, List.mem_range] at hb
  obtain ⟨k, -, rfl⟩ := hb
  exact autocorrAt_replicate_zero n k

/-- `argmaxGo` over an all-zero list never moves off its running best
(no strict improvement exists). -/
theorem argmaxGo_replicate_zero (m : ℕ) :
    ∀ i best : ℕ, argmaxGo (List.replicate m 0) i best 0 = best := by
  induction m with
  | zero => intro i best; rfl
  | succ m ih =>
    intro i best
    rw [List.replicate_succ]
    unfold argmaxGo
    rw [if_neg (lt_irrefl 0)]
    exact ih (i + 1) best

/-- `np.argmax` of an all-zero slice is index 0 (first of the ties). -/
theorem argmaxIdx_replicate_zero (m : ℕ) :
    argmaxIdx (List.replicate m 0) = 0 := by
  cases m with
  | zero => rfl
  | succ m =>
    rw [List.replicate_succ]
    unfold argmaxIdx
    exact argmaxGo_replicate_zero m 1 0

/-- `getD` of an all-zero list with default 0 is 0 at every index. -/
theorem getD_replicate_zero (n : ℕ) :
    ∀ i : ℕ, (List.replicate n (0 : ℚ)).getD i 0 = 0 := by
  induction n with
  | zero => intro i; cases i <;> rfl
  | succ n ih =>
    intro i
    cases i with
    | zero => rfl
    | succ i => rw [List.replicate_succ]; exact ih i

/-- Claim C1, code behavior at the failing input: on the all-zero
1024-sample chunk at 44100 Hz (lag-0 autocorrelation 0), `detect_pitch`
does NOT report unvoiced: the confidence gate `corr[peak] < 0.1*corr[0]`
compares `0 < 0`, which is false, so the detector returns
`44100/44 ≈ 1002.27 Hz`, and the caller's `50 <= freq <= 2000` acceptance
check passes it as voiced. (Only the separate RMS energy gate, which the
all-zero chunk fails, keeps `audio_thread` from queueing an event.) -/
theorem detectPitch_allzero_voiced :
    detectPitch (List.replicate 1024 0) 44100 = 44100 / 44 ∧
    voicedAccept (44100 / 44) = true ∧
    rmsBelowThreshold (List.replicate 1024 0) VOLUME_THRESHOLD = true := by
  refine ⟨?_, by simp only [voicedAccept, decide_eq_true_eq]; norm_num, ?_⟩
  · simp only [detectPitch]
    rw [centered_replicate_zero, autocorr_replicate_zero]
    rw [List.length_replicate]
    norm_num
    rw [argmaxIdx_replicate_zero]
    norm_num
  · unfold rmsBelowThreshold meanSq VOLUME_THRESHOLD
    rw [List.map_replicate]
    norm_num

/-- Structure of `detect_pitch` results: either unvoiced (0), or
`rate / peak_index` for a peak index at or above the clamped lower lag
bound. -/
theorem detectPitch_cases (signal : List ℚ) (rate : ℕ) :
    detectPitch signal rate = 0 ∨
    ∃ p : ℕ, (if rate / 1000 < 1 then 1 else rate / 1000) ≤ p ∧
      detectPitch signal rate = (rate : ℚ) / (p : ℚ) := by
  simp only [detectPitch]
  split_ifs <;>
    first
      | exact Or.inl rfl
      | exact Or.inr ⟨_, Nat.le_add_left _ _, rfl⟩

/-- Claim C10: every nonzero frequency `detect_pitch` returns has the form
`rate / lag` for an integer lag at least `int(rate/1000)` (and at least
1), is bounded by `rate / int(rate/1000)` whenever that lower lag bound is
at least 1, and never exceeds 2000 Hz — so the caller's upper acceptance
bound `freq <= 2000` is never the deciding condition. -/
theorem detectPitch_frequency_band (signal : List ℚ) (rate : ℕ)
    (h : detectPitch signal rate ≠ 0) :
    ∃ lag : ℕ, rate / 1000 ≤ lag ∧ 1 ≤ lag ∧
      detectPitch signal rate = (rate : ℚ) / (lag : ℚ) ∧
      detectPitch signal rate ≤ 2000 ∧
      (1 ≤ rate / 1000 →
        detectPitch signal rate ≤ (rate : ℚ) / ((rate / 1000 : ℕ) : ℚ)) := by
  rcases detectPitch_cases signal rate with h0 | ⟨p, hp, heq⟩
  · exact absurd h0 h
  have hq1 : rate / 1000 ≤ p := by
    rcases lt_or_le (rate / 1000) 1 with hlt | hge
    · rw [if_pos hlt] at hp; omega
    · rwa [if_neg (not_lt.mpr hge)] at hp
  have hp1 : 1 ≤ p := by
    rcases lt_or_le (rate / 1000) 1 with hlt | hge
    · rwa [if_pos hlt] at hp
    · rw [if_neg (not_lt.mpr hge)] at hp; omega
  have hpQ : (0 : ℚ) < (p : ℚ) := by exact_mod_cast hp1
  refine ⟨p, hq1, hp1, heq, ?_, ?_⟩
  · rw [heq]
    rcases Nat.eq_zero_or_pos (rate / 1000) with hq0 | hqpos
    · have hrlt : rate < 1000 := (Nat.div_eq_zero_iff (by norm_num)).mp hq0
      have h1 : (rate : ℚ) / (p : ℚ) ≤ (rate : ℚ) :=
        div_le_self (by positivity) (by exact_mod_cast hp1)
      have h2 : (rate : ℚ) < 1000 := by exact_mod_cast hrlt
      linarith
    · have hqp : (0 : ℚ) < ((rate / 1000 : ℕ) : ℚ) := by exact_mod_cast hqpos
      have hstep : (rate : ℚ) / (p : ℚ) ≤ (rate : ℚ) / ((rate / 1000 : ℕ) : ℚ) :=
        div_le_div_of_nonneg_left (by positivity) hqp (by exact_mod_cast hq1)
      have hbound : (rate : ℚ) ≤ 2000 * ((rate / 1000 : ℕ) : ℚ) := by
        have hmod : rate % 1000 < 1000 := Nat.mod_lt _ (by norm_num)
        have hdm : 1000 * (rate / 1000) + rate % 1000 = rate := Nat.div_add_mod rate 1000
        have hnat : rate ≤ 2000 * (rate / 1000) := by omega
        exact_mod_cast hnat
      have hfinal : (rate : ℚ) / ((rate / 1000 : ℕ) : ℚ) ≤ 2000 :=
        (div_le_iff₀ hqp).mpr (by linarith)
      linarith
  · intro hge
    rw [heq]
    have hqp : (0 : ℚ) < ((rate / 1000 : ℕ) : ℚ) := by exact_mod_cast hge
    exact div_le_div_of_nonneg_left (by positivity) hqp (by exact_mod_cast hq1)

/-- Concrete evaluation on an all-zero 4-sample chunk at rate 100: the
clamped lag band is `[1, 2)`, the vacuous confidence gate passes, and the
result is `100/1 = 100`. -/
theorem detectPitch_replicate4 : detectPitch (List.replicate 4 0) 100 = 100 := by
  simp only [detectPitch]
  rw [centered_replicate_zero, autocorr_replicate_zero]
  rw [List.length_replicate]
  norm_num
  norm_num [argmaxIdx, argmaxGo]

/-- Witness for `detectPitch_frequency_band` at a concrete voiced-result
input: the all-zero 4-sample chunk at rate 100 makes `detect_pitch` return
`100/1 = 100 ≠ 0` (via the same vacuous confidence gate as the C1
counterexample). -/
theorem detectPitch_frequency_band_witness :
    detectPitch (List.replicate 4 0) 100 ≠ 0 ∧
    ∃ lag : ℕ, 100 / 1000 ≤ lag ∧ 1 ≤ lag ∧
      detectPitch (List.replicate 4 0) 100 = (100 : ℚ) / (lag : ℚ) ∧
      detectPitch (List.replicate 4 0) 100 ≤ 2000 ∧
      (1 ≤ 100 / 1000 →
        detectPitch (List.replicate 4 0) 100 ≤ (100 : ℚ) / ((100 / 1000 : ℕ) : ℚ)) :=
  ⟨by rw [detectPitch_replicate4]; norm_num,
   detectPitch_frequency_band (List.replicate 4 0) 100
     (by rw [detectPitch_replicate4]; norm_num)⟩

/-- Claim C8: immediately after `stop` or either seek command, the live
lists are empty and the channel holds no buffered events (the command
clears both under the lock, including events already in the channel at
that moment); consequently, at any later tick, every rendered live point
comes from an event pushed after the command — no pre-command event is
ever rendered again. -/
theorem clear_command_no_stale_events (dur t : ℚ) (s : SysState) (c : Ev)
    (hc : c = Ev.stop ∨ c = Ev.seekLeft ∨ c = Ev.seekRight) :
    ((applyEv dur s (c, t)).live = [] ∧ (applyEv dur s (c, t)).queue = []) ∧
    ∀ (evs : List (Ev × ℚ)) (tq : ℚ) (e : ℚ × ℚ),
      e ∈ renderedLive (evs.foldl (applyEv dur) (applyEv dur s (c, t))) tq →
      e ∈ pushedEvents evs := by
  have hclear : (applyEv dur s (c, t)).live = [] ∧ (applyEv dur s (c, t)).queue = [] := by
    rcases hc with rfl | rfl | rfl <;> exact ⟨rfl, rfl⟩
  refine ⟨hclear, ?_⟩
  intro evs tq e he
  have hmem : e ∈ (evs.foldl (applyEv dur) (applyEv dur s (c, t))).live :=
    List.mem_of_mem_filter he
  have hconc := (mem_foldl_applyEv dur evs (applyEv dur s (c, t)) (fun _ => False)
    (by simp [hclear.1]) (by simp [hclear.2])).1 e hmem
  tauto

/-- Witness for `clear_command_no_stale_events`: stopping the sample state
(one live point, one queued point) at wall time 1 empties both buffers,
and the event `(0, 60)` rendered after a later push-then-tick run is among
the post-command pushes. -/
theorem clear_command_witness :
    ((applyEv 10 sampleState (Ev.stop, 1)).live = [] ∧
     (applyEv 10 sampleState (Ev.stop, 1)).queue = []) ∧
    ((0 : ℚ), (60 : ℚ)) ∈ pushedEvents [(Ev.push (0, 60), 2), (Ev.tick, 3)] := by
  have h := clear_command_no_stale_events 10 1 sampleState Ev.stop (Or.inl rfl)
  refine ⟨h.1, h.2 [(Ev.push (0, 60), 2), (Ev.tick, 3)] 3 (0, 60) ?_⟩
  norm_num [renderedLive, applyEv, updateTick, pushEvent, stopKey, sampleState,
    getElapsedPlayingTime, PAST_DURATION, List.dropWhile, List.filter]

/-- Closed form of the hop loop: running `refGo` over the hop starts
`[b*fhs, (b+1)*fhs, ...]` with the accumulator primed at `b * (fhs/rate)`
emits exactly the gated-in voiced hops, each stamped `k * (fhs/rate)`. -/
theorem refGo_range (noteOf : ℚ → ℚ) (data : List ℚ) (fhs rate : ℕ) (thr : ℚ) :
    ∀ n b : ℕ,
      refGo noteOf data fhs rate thr ((List.range' b n).map (· * fhs))
        ((b : ℚ) * ((fhs : ℚ) / (rate : ℚ))) =
      (((List.range' b n).filter (fun k =>
          !rmsBelowThreshold (chunkAt data fhs k) thr &&
          voicedAccept (detectPitch (chunkAt data fhs k) rate))).map
        (fun k : ℕ => (k : ℚ) * ((fhs : ℚ) / (rate : ℚ))),
       ((List.range' b n).filter (fun k =>
          !rmsBelowThreshold (chunkAt data fhs k) thr &&
          voicedAccept (detectPitch (chunkAt data fhs k) rate))).map
        (fun k => noteOf (detectPitch (chunkAt data fhs k) rate))) := by
  intro n
  induction n with
  | zero => intro b; rfl
  | succ n ih =>
    intro b
    rw [List.range'_succ]
    simp only [List.map_cons, List.filter_cons]
    rw [refGo]
    have htime : (b : ℚ) * ((fhs : ℚ) / (rate : ℚ)) + (fhs : ℚ) / (rate : ℚ) =
        ((b + 1 : ℕ) : ℚ) * ((fhs : ℚ) / (rate : ℚ)) := by push_cast; ring
    rw [htime, ih (b + 1)]
    simp only [chunkAt]
    by_cases h1 : rmsBelowThreshold (List.take fhs (List.drop (b * fhs) data)) thr <;>
      by_cases h2 : voicedAccept (detectPitch (List.take fhs (List.drop (b * fhs) data)) rate) <;>
      simp [h1, h2]

/-- Claim C5: on a float file, `process_audio_file` emits a
`(timestamp, note)` pair exactly for the gated-in voiced hops among the
hops its loop visits, and the timestamp of hop number `k` is exactly
`k * (file_hop_size / rate)` — gated-out (silent) and unvoiced hops emit
nothing but still advance the accumulator by exactly one hop duration. -/
theorem reference_hops_timestamps (noteOf : ℚ → ℚ) (rate hop : ℕ) (data : List ℚ)
    (thr : ℚ) :
    processAudioFile noteOf rate (WavData.f32 data) hop thr =
      (((List.range (numHops data.length (fileHopSize hop rate))).filter (fun k =>
          !rmsBelowThreshold (chunkAt data (fileHopSize hop rate) k) thr &&
          voicedAccept (detectPitch (chunkAt data (fileHopSize hop rate) k) rate))).map
        (fun k : ℕ => (k : ℚ) * ((fileHopSize hop rate : ℚ) / (rate : ℚ))),
       ((List.range (numHops data.length (fileHopSize hop rate))).filter (fun k =>
          !rmsBelowThreshold (chunkAt data (fileHopSize hop rate) k) thr &&
          voicedAccept (detectPitch (chunkAt data (fileHopSize hop rate) k) rate))).map
        (fun k => noteOf (detectPitch (chunkAt data (fileHopSize hop rate) k) rate))) := by
  have key := refGo_range noteOf data (fileHopSize hop rate) rate thr
    (numHops data.length (fileHopSize hop rate)) 0
  rw [← List.range_eq_range'] at key
  simp only [Nat.cast_zero, zero_mul] at key
  exact key

/-- The element `nearestGo` returns belongs to its candidate pool and
attains the minimal distance to the target over the whole pool. -/
theorem nearestGo_spec (lx : ℚ) :
    ∀ (bs : List (ℚ × ℚ)) (b : ℚ × ℚ),
      nearestGo lx bs b ∈ b :: bs ∧
      ∀ r ∈ b :: bs, |(nearestGo lx bs b).1 - lx| ≤ |r.1 - lx| := by
  intro bs
  induction bs with
  | nil =>
    intro b
    refine ⟨List.mem_cons_self b [], ?_⟩
    intro r hr
    rcases List.mem_cons.mp hr with rfl | hr'
    · exact le_refl _
    · exact absurd hr' (List.not_mem_nil r)
  | cons x xs ih =>
    intro b
    unfold nearestGo
    by_cases h : |x.1 - lx| < |b.1 - lx|
    · rw [if_pos h]
      obtain ⟨hmem, hbest⟩ := ih x
      refine ⟨?_, ?_⟩
      · simp only [List.mem_cons] at hmem ⊢
        tauto
      · intro r hr
        rcases List.mem_cons.mp hr with rfl | hr'
        · exact le_trans (hbest x (List.mem_cons_self x xs)) (le_of_lt h)
        · exact hbest r hr'
    · rw [if_neg h]
      obtain ⟨hmem, hbest⟩ := ih b
      refine ⟨?_, ?_⟩
      · simp only [List.mem_cons] at hmem ⊢
        tauto
      · intro r hr
        rcases List.mem_cons.mp hr with rfl | hr'
        · exact hbest r (List.mem_cons_self r xs)
        · rcases List.mem_cons.mp hr' with rfl | hr''
          · exact le_trans (hbest b (List.mem_cons_self b xs)) (not_lt.mp h)
          · exact hbest r (List.mem_cons.mpr (Or.inr hr''))

/-- Claim C6, counterexample: the candidate pool is only the *shown*
reference points, not all reference points at or before `now`. With
`now = 10` and zero output latency, the reference point at `t = 4.9`
(display-relative `-5.1`, just outside the 5-second past window) is at or
before `now` and within 0.1 s of the shown live point at `t = 5`, so the
claim assigns error `|60 - 60| = 0`; the code's pool is empty and it
assigns the unmatched penalty 3. -/
theorem scorer_pool_cex :
    computeErrors [(49 / 10, 60)] [(5, 60)] 10 0 = [3] ∧
    claimScorerErrors [(49 / 10, 60)] [(5, 60)] 10 = [0] ∧
    (3 : ℚ) ≠ 0 := by
  refine ⟨?_, ?_, by norm_num⟩ <;>
    norm_num [computeErrors, claimScorerErrors, liveShown, bgPast, refShown,
      scoreError, claimScoreError, nearestGo, PAST_DURATION, FUTURE_DURATION,
      List.filter, List.map, abs_lt]

/-- Claim C6 (amended): for each shown live point the scorer selects the
nearest-in-display-time reference point among the *shown* reference points
at or before now (display-relative time, i.e. timestamp − now +
outputLatency, in `[-PAST_DURATION, 0]` — not among all reference points
at or before now); if that gap is strictly below 0.2 s the error is
`|liveNote − refNote|` (so a gap of 0 gives exactly `|noteDiff|`), and
otherwise — including when the pool is empty — the error is exactly the
fixed 3-semitone unmatched penalty. -/
theorem scorer_characterization (refs live : List (ℚ × ℚ)) (now lat : ℚ) :
    List.Forall₂ (fun p err =>
      (bgPast refs now lat = [] → err = 3) ∧
      (bgPast refs now lat ≠ [] →
        ∃ r ∈ bgPast refs now lat,
          (∀ q ∈ bgPast refs now lat, |r.1 - p.1| ≤ |q.1 - p.1|) ∧
          err = if |r.1 - p.1| < 1 / 5 then |p.2 - r.2| else 3))
      (liveShown live now) (computeErrors refs live now lat) := by
  unfold computeErrors
  rw [List.forall₂_map_right_iff, List.forall₂_same]
  intro p hp
  constructor
  · intro hempty
    rw [hempty]
    rfl
  · intro hne
    obtain ⟨b, bs, hbs⟩ := List.exists_cons_of_ne_nil hne
    rw [hbs]
    obtain ⟨hmem, hbest⟩ := nearestGo_spec p.1 bs b
    exact ⟨nearestGo p.1 bs b, hmem, hbest, rfl⟩

end Voice
